import Mathlib

/-!
Verification of the genkitx-weaviate plugin (client wrapper, indexer,
retriever, plugin registration root) against its natural-language
specification.  The TypeScript sources are shallowly embedded as Lean
definitions: JavaScript objects become structures, JSON values become an
explicit inductive type with an executable serializer and parser
(modelling the `JSON.stringify` / `JSON.parse` built-ins on the integer
fragment of JSON), promises become memoized `Except` outcomes, and the
Weaviate transport becomes a record of response functions.
-/

namespace GenkitxWeaviate

/-- The opening brace character, written via its code point. -/
def lbraceChar : Char := Char.ofNat 123

/-- The closing brace character, written via its code point. -/
def rbraceChar : Char := Char.ofNat 125

/-- The double-quote character. -/
def quoteChar : Char := Char.ofNat 34

/-- The backslash character. -/
def backslashChar : Char := Char.ofNat 92

mutual
/-- A JSON value, as manipulated by the JavaScript `JSON` built-ins.
Numbers are modelled by integers (the claims never involve fractional
metadata values). -/
inductive Json where
  | null : Json
  | bool (b : Bool) : Json
  | num (n : Int) : Json
  | str (s : String) : Json
  | arr (elems : JsonArr) : Json
  | obj (fields : JsonObj) : Json
  deriving DecidableEq

/-- The elements of a JSON array. -/
inductive JsonArr where
  | nil : JsonArr
  | cons (hd : Json) (tl : JsonArr) : JsonArr
  deriving DecidableEq

/-- The fields of a JSON object, in insertion order, as JavaScript keeps
string-keyed properties. -/
inductive JsonObj where
  | nil : JsonObj
  | cons (key : String) (val : Json) (tl : JsonObj) : JsonObj
  deriving DecidableEq
end

/-- The keys of a JSON object, in order. -/
def JsonObj.keys : JsonObj → List String
  | .nil => []
  | .cons k _ tl => k :: tl.keys

/-- Whether a JSON object has a field with the given key. -/
def JsonObj.hasKey : JsonObj → String → Bool
  | .nil, _ => false
  | .cons k _ tl, key => k == key || tl.hasKey key

/-- JavaScript property assignment `o[key] = v` on an object: overwrite
the existing field in place if the key is present, append otherwise. -/
def JsonObj.set : JsonObj → String → Json → JsonObj
  | .nil, key, v => .cons key v .nil
  | .cons k w tl, key, v =>
    if k == key then .cons k v tl else .cons k w (tl.set key v)

/-- Appending a fresh field at the end of a JSON object. -/
def JsonObj.snoc : JsonObj → String → Json → JsonObj
  | .nil, key, v => .cons key v .nil
  | .cons k w tl, key, v => .cons k w (tl.snoc key v)

/-- JavaScript truthiness of a JSON value: `null`, `false`, `0` and the
empty string are falsy; every array and every object (including the
empty object) is truthy. -/
def jsTruthy : Json → Bool
  | .null => false
  | .bool b => b
  | .num n => !(n == 0)
  | .str s => !s.isEmpty
  | .arr _ => true
  | .obj _ => true

/-- The decimal digit character for `d < 10`. -/
def digitChar (d : Nat) : Char := Char.ofNat (48 + d)

/-- A lowercase hexadecimal digit character for `d < 16`. -/
def hexDigitChar (d : Nat) : Char :=
  if d < 10 then Char.ofNat (48 + d) else Char.ofNat (87 + d)

/-- Fuel-indexed digit printer; for `fuel > n` it produces the decimal
digits of `n`, most significant first. -/
def natToCharsAux : Nat → Nat → List Char
  | 0, _ => []
  | fuel + 1, n =>
    if n < 10 then [digitChar n]
    else natToCharsAux fuel (n / 10) ++ [digitChar (n % 10)]

/-- The decimal digits of a natural number, most significant first. -/
def natToChars (n : Nat) : List Char := natToCharsAux (n + 1) n

/-- The decimal rendering of an integer. -/
def intToChars (n : Int) : List Char :=
  if n < 0 then '-' :: natToChars n.natAbs else natToChars n.toNat

/-- The `\u00XX` escape of a control character, from the two hex digits
of its code point.  `JSON.stringify` escapes the quote and the
backslash with a backslash, writes control characters this way, and
emits everything else verbatim. -/
def controlEscape (hi lo : Nat) : List Char :=
  backslashChar :: 'u' :: '0' :: '0' ::
    hexDigitChar hi :: hexDigitChar lo :: []

/-- How `JSON.stringify` treats one character of a string literal. -/
def escapeChar (c : Char) : List Char :=
  if c = quoteChar then [backslashChar, quoteChar]
  else if c = backslashChar then [backslashChar, backslashChar]
  else if c.toNat < 32 then controlEscape (c.toNat / 16) (c.toNat % 16)
  else [c]

/-- Escaping a list of characters. -/
def escapeChars : List Char → List Char
  | [] => []
  | c :: cs => escapeChar c ++ escapeChars cs

/-- A JSON string literal: quote, escaped body, quote. -/
def stringifyString (s : String) : List Char :=
  quoteChar :: (escapeChars s.data ++ [quoteChar])

mutual
/-- The characters `JSON.stringify` produces for a value (no
whitespace, which is what the JavaScript built-in emits by default). -/
def stringifyJson : Json → List Char
  | .null => "null".data
  | .bool true => "true".data
  | .bool false => "false".data
  | .num n => intToChars n
  | .str s => stringifyString s
  | .arr es => '[' :: (stringifyArrElems es ++ [']'])
  | .obj fs => lbraceChar :: (stringifyObjFields fs ++ [rbraceChar])

/-- Comma-separated array elements. -/
def stringifyArrElems : JsonArr → List Char
  | .nil => []
  | .cons j .nil => stringifyJson j
  | .cons j (.cons j' tl) =>
    stringifyJson j ++ ',' :: stringifyArrElems (.cons j' tl)

/-- Comma-separated `"key":value` object fields. -/
def stringifyObjFields : JsonObj → List Char
  | .nil => []
  | .cons k v .nil => stringifyString k ++ ':' :: stringifyJson v
  | .cons k v (.cons k' v' tl) =>
    stringifyString k ++ ':' :: stringifyJson v ++
      ',' :: stringifyObjFields (.cons k' v' tl)
end

/-- The model of `JSON.stringify`. -/
def jsonStringify (j : Json) : String := ⟨stringifyJson j⟩

/-- Reading a hexadecimal digit character back to its value. -/
def readHexDigit (c : Char) : Option Nat :=
  if 48 ≤ c.toNat ∧ c.toNat ≤ 57 then some (c.toNat - 48)
  else if 97 ≤ c.toNat ∧ c.toNat ≤ 102 then some (c.toNat - 87)
  else if 65 ≤ c.toNat ∧ c.toNat ≤ 70 then some (c.toNat - 55)
  else none

/-- Parsing the body of a JSON string literal after the opening quote,
unescaping as it goes; returns the decoded characters and the input
remaining after the closing quote. -/
def parseStringBody : List Char → Option (List Char × List Char)
  | [] => none
  | c :: cs =>
    if c = quoteChar then some ([], cs)
    else if c = backslashChar then
      match cs with
      | [] => none
      | e :: cs' =>
        if e = quoteChar then
          (parseStringBody cs').map (fun p => (quoteChar :: p.1, p.2))
        else if e = backslashChar then
          (parseStringBody cs').map (fun p => (backslashChar :: p.1, p.2))
        else if e = '/' then
          (parseStringBody cs').map (fun p => ('/' :: p.1, p.2))
        else if e = 'n' then
          (parseStringBody cs').map (fun p => (Char.ofNat 10 :: p.1, p.2))
        else if e = 't' then
          (parseStringBody cs').map (fun p => (Char.ofNat 9 :: p.1, p.2))
        else if e = 'r' then
          (parseStringBody cs').map (fun p => (Char.ofNat 13 :: p.1, p.2))
        else if e = 'b' then
          (parseStringBody cs').map (fun p => (Char.ofNat 8 :: p.1, p.2))
        else if e = 'f' then
          (parseStringBody cs').map (fun p => (Char.ofNat 12 :: p.1, p.2))
        else if e = 'u' then
          match cs' with
          | h1 :: h2 :: h3 :: h4 :: cs'' =>
            match readHexDigit h1, readHexDigit h2,
                  readHexDigit h3, readHexDigit h4 with
            | some d1, some d2, some d3, some d4 =>
              (parseStringBody cs'').map
                (fun p =>
                  (Char.ofNat (((d1 * 16 + d2) * 16 + d3) * 16 + d4) :: p.1,
                    p.2))
            | _, _, _, _ => none
          | _ => none
        else none
    else (parseStringBody cs).map (fun p => (c :: p.1, p.2))

/-- Whether a character is a decimal digit. -/
def isDigitChar (c : Char) : Bool := 48 ≤ c.toNat && c.toNat ≤ 57

/-- Consuming a maximal run of decimal digits, extending an accumulator. -/
def parseDigits : List Char → Nat → Nat × List Char
  | [], acc => (acc, [])
  | c :: cs, acc =>
    if isDigitChar c then parseDigits cs (acc * 10 + (c.toNat - 48))
    else (acc, c :: cs)

/-- Parsing an optionally-signed decimal integer (the integer fragment
of JSON numbers). -/
def parseNumber : List Char → Option (Int × List Char)
  | [] => none
  | c :: cs =>
    if c = '-' then
      match cs with
      | [] => none
      | d :: _ =>
        if isDigitChar d then
          let p := parseDigits cs 0
          some (-(p.1 : Int), p.2)
        else none
    else if isDigitChar c then
      let p := parseDigits (c :: cs) 0
      some ((p.1 : Int), p.2)
    else none

/-- Consuming an exact run of literal characters from the input,
returning what follows it. -/
def dropLit : List Char → List Char → Option (List Char)
  | [], r => some r
  | c :: cs, d :: r => if d = c then dropLit cs r else none
  | _ :: _, [] => none

/-- The tail of the `null` literal after its leading `n`. -/
def parseLitNull (cs : List Char) : Option (Json × List Char) :=
  (dropLit "ull".data cs).map (fun r => (.null, r))

/-- The tail of the `true` literal after its leading `t`. -/
def parseLitTrue (cs : List Char) : Option (Json × List Char) :=
  (dropLit "rue".data cs).map (fun r => (.bool true, r))

/-- The tail of the `false` literal after its leading `f`. -/
def parseLitFalse (cs : List Char) : Option (Json × List Char) :=
  (dropLit "alse".data cs).map (fun r => (.bool false, r))

mutual
/-- Fuel-indexed recursive-descent parser for one JSON value; with
enough fuel (more than three times the input length is always enough) it
behaves as an ideal parser of whitespace-free JSON documents. -/
def parseValue : Nat → List Char → Option (Json × List Char)
  | 0, _ => none
  | _ + 1, [] => none
  | fuel + 1, c :: rest =>
    if c = 'n' then parseLitNull rest
    else if c = 't' then parseLitTrue rest
    else if c = 'f' then parseLitFalse rest
    else if c = quoteChar then
      (parseStringBody rest).map (fun p => (.str ⟨p.1⟩, p.2))
    else if c = '[' then parseArrBody fuel rest
    else if c = lbraceChar then parseObjBody fuel rest
    else (parseNumber (c :: rest)).map (fun p => (.num p.1, p.2))

/-- The inside of an array, after the opening bracket. -/
def parseArrBody : Nat → List Char → Option (Json × List Char)
  | 0, _ => none
  | _ + 1, [] => none
  | fuel + 1, r0 :: r =>
    if r0 = ']' then some (.arr .nil, r)
    else (parseArrElems fuel (r0 :: r)).map (fun p => (.arr p.1, p.2))

/-- The inside of an object, after the opening brace. -/
def parseObjBody : Nat → List Char → Option (Json × List Char)
  | 0, _ => none
  | _ + 1, [] => none
  | fuel + 1, r0 :: r =>
    if r0 = rbraceChar then some (.obj .nil, r)
    else (parseObjFields fuel (r0 :: r)).map (fun p => (.obj p.1, p.2))

/-- One-or-more comma-separated array elements up to the closing
bracket. -/
def parseArrElems : Nat → List Char → Option (JsonArr × List Char)
  | 0, _ => none
  | fuel + 1, cs =>
    match parseValue fuel cs with
    | none => none
    | some (j, r) => parseArrElemsRest fuel j r

/-- After one array element: either a comma and more elements, or the
closing bracket. -/
def parseArrElemsRest : Nat → Json → List Char → Option (JsonArr × List Char)
  | 0, _, _ => none
  | _ + 1, _, [] => none
  | fuel + 1, j, d :: r =>
    if d = ',' then (parseArrElems fuel r).map (fun p => (.cons j p.1, p.2))
    else if d = ']' then some (.cons j .nil, r)
    else none

/-- One-or-more comma-separated `"key":value` object fields up to the
closing brace. -/
def parseObjFields : Nat → List Char → Option (JsonObj × List Char)
  | 0, _ => none
  | _ + 1, [] => none
  | fuel + 1, c :: rest =>
    if c = quoteChar then
      match parseStringBody rest with
      | none => none
      | some (k, r) => parseObjFieldVal fuel ⟨k⟩ r
    else none

/-- After an object key: a colon and the field value. -/
def parseObjFieldVal : Nat → String → List Char → Option (JsonObj × List Char)
  | 0, _, _ => none
  | _ + 1, _, [] => none
  | fuel + 1, k, d :: r =>
    if d = ':' then
      match parseValue fuel r with
      | none => none
      | some (v, r2) => parseObjFieldsRest fuel k v r2
    else none

/-- After one object field: either a comma and more fields, or the
closing brace. -/
def parseObjFieldsRest :
    Nat → String → Json → List Char → Option (JsonObj × List Char)
  | 0, _, _, _ => none
  | _ + 1, _, _, [] => none
  | fuel + 1, k, v, d :: r =>
    if d = ',' then
      (parseObjFields fuel r).map (fun p => (.cons k v p.1, p.2))
    else if d = rbraceChar then some (.cons k v .nil, r)
    else none
end

/-- The model of `JSON.parse`: parse a complete value with generous
fuel, requiring the whole input to be consumed, and fail (as the
JavaScript built-in throws) otherwise. -/
def jsonParse (s : String) : Option Json :=
  match parseValue (3 * s.data.length + 3) s.data with
  | some (j, []) => some j
  | _ => none

/-! ### Printer / parser round-trip: decimal numerals -/

theorem natToCharsAux_irrel (fuel : Nat) :
    ∀ fuel' n, n < fuel → n < fuel' →
      natToCharsAux fuel n = natToCharsAux fuel' n := by
  induction fuel with
  | zero => intro fuel' n h _; omega
  | succ f ih =>
    intro fuel' n h h'
    cases fuel' with
    | zero => omega
    | succ f' =>
      simp only [natToCharsAux]
      by_cases h10 : n < 10
      · simp [h10]
      · simp only [if_neg h10]
        rw [ih f' (n / 10) (by omega) (by omega)]

theorem digitChar_toNat {d : Nat} (h : d < 10) :
    (digitChar d).toNat = 48 + d := by
  interval_cases d <;> decide

theorem isDigitChar_digitChar {d : Nat} (h : d < 10) :
    isDigitChar (digitChar d) = true := by
  simp [isDigitChar, digitChar_toNat h]; omega

theorem natToCharsAux_all_digits (fuel : Nat) :
    ∀ n c, c ∈ natToCharsAux fuel n → isDigitChar c = true := by
  induction fuel with
  | zero => intro n c hc; simp [natToCharsAux] at hc
  | succ f ih =>
    intro n c hc
    simp only [natToCharsAux] at hc
    by_cases h10 : n < 10
    · simp [h10] at hc
      subst hc
      exact isDigitChar_digitChar h10
    · simp [h10] at hc
      rcases hc with hc | hc
      · exact ih _ _ hc
      · subst hc
        exact isDigitChar_digitChar (Nat.mod_lt _ (by omega))

theorem natToCharsAux_ne_nil {fuel n : Nat} (h : n < fuel) :
    natToCharsAux fuel n ≠ [] := by
  cases fuel with
  | zero => omega
  | succ f =>
    simp only [natToCharsAux]
    by_cases h10 : n < 10 <;> simp [h10]

theorem parseDigits_natToCharsAux (fuel : Nat) :
    ∀ n acc rest, n < fuel →
      parseDigits (natToCharsAux fuel n ++ rest) acc =
        parseDigits rest (acc * 10 ^ (natToCharsAux fuel n).length + n) := by
  induction fuel with
  | zero => intro n acc rest h; omega
  | succ f ih =>
    intro n acc rest h
    simp only [natToCharsAux]
    by_cases h10 : n < 10
    · simp only [if_pos h10, List.cons_append, List.nil_append,
        List.length_cons, List.length_nil]
      rw [parseDigits, if_pos (isDigitChar_digitChar h10), digitChar_toNat h10]
      norm_num
    · simp only [if_neg h10, List.append_assoc, List.cons_append,
        List.nil_append, List.length_append, List.length_cons,
        List.length_nil]
      rw [ih (n / 10) acc (digitChar (n % 10) :: rest) (by omega)]
      rw [parseDigits,
        if_pos (isDigitChar_digitChar (Nat.mod_lt _ (by omega))),
        digitChar_toNat (Nat.mod_lt _ (by omega))]
      congr 1
      rw [pow_succ, ← Nat.mul_assoc]
      omega

/-- Input whose first character is not a decimal digit (so a digit run
stops exactly at its boundary). -/
def noDigitHead (cs : List Char) : Bool :=
  cs.head?.all fun c => !(isDigitChar c)

theorem parseDigits_stop {rest : List Char} (h : noDigitHead rest = true)
    (acc : Nat) : parseDigits rest acc = (acc, rest) := by
  cases rest with
  | nil => rfl
  | cons c cs =>
    simp only [noDigitHead, List.head?_cons, Option.all,
      Bool.not_eq_true'] at h
    simp [parseDigits, h]

theorem parseDigits_natToChars (n : Nat) (rest : List Char) (acc : Nat)
    (h : noDigitHead rest = true) :
    parseDigits (natToChars n ++ rest) acc =
      (acc * 10 ^ (natToChars n).length + n, rest) := by
  rw [natToChars, parseDigits_natToCharsAux (n + 1) n acc rest (by omega),
    parseDigits_stop h]

theorem parseNumber_natToChars (n : Nat) (rest : List Char)
    (h : noDigitHead rest = true) :
    parseNumber (natToChars n ++ rest) = some ((n : Int), rest) := by
  obtain ⟨c, cs, heq⟩ : ∃ c cs, natToChars n = c :: cs := by
    cases hn : natToChars n with
    | nil => exact absurd hn (natToCharsAux_ne_nil (by omega))
    | cons c cs => exact ⟨c, cs, rfl⟩
  have hd : isDigitChar c = true := by
    apply natToCharsAux_all_digits (n + 1) n
    rw [← natToChars, heq]; exact List.mem_cons_self _ _
  have hnotminus : ¬(c = '-') := by
    intro hc; subst hc; simp [isDigitChar] at hd
  have hparse := parseDigits_natToChars n rest 0 h
  rw [heq] at hparse ⊢
  rw [List.cons_append, parseNumber.eq_def]
  simp only [if_neg hnotminus, if_pos hd]
  rw [← List.cons_append, hparse]
  simp

theorem parseNumber_intToChars (n : Int) (rest : List Char)
    (h : noDigitHead rest = true) :
    parseNumber (intToChars n ++ rest) = some (n, rest) := by
  by_cases hneg : n < 0
  · rw [intToChars, if_pos hneg]
    obtain ⟨c, cs, heq⟩ : ∃ c cs, natToChars n.natAbs = c :: cs := by
      cases hn : natToChars n.natAbs with
      | nil => exact absurd hn (natToCharsAux_ne_nil (by omega))
      | cons c cs => exact ⟨c, cs, rfl⟩
    have hd : isDigitChar c = true := by
      apply natToCharsAux_all_digits (n.natAbs + 1) n.natAbs
      rw [← natToChars, heq]; exact List.mem_cons_self _ _
    have hparse := parseDigits_natToChars n.natAbs rest 0 h
    rw [heq] at hparse ⊢
    simp only [List.cons_append, parseNumber, if_pos rfl, hd, if_true]
    simp only [List.cons_append] at hparse
    rw [hparse]
    simp only [Option.some.injEq, Prod.mk.injEq]
    refine ⟨?_, trivial⟩
    simp only [Nat.zero_mul, Nat.zero_add]
    omega
  · rw [intToChars, if_neg hneg, parseNumber_natToChars _ _ h]
    simp only [Option.some.injEq, Prod.mk.injEq]
    refine ⟨?_, trivial⟩
    omega

/-! ### Printer / parser round-trip: string literals -/

theorem readHexDigit_hexDigitChar {d : Nat} (h : d < 16) :
    readHexDigit (hexDigitChar d) = some d := by
  interval_cases d <;> decide

theorem parseStringBody_escape (cs : List Char) (rest : List Char) :
    parseStringBody (escapeChars cs ++ (quoteChar :: rest)) =
      some (cs, rest) := by
  induction cs with
  | nil =>
    rw [escapeChars, List.nil_append, parseStringBody.eq_def]
    simp
  | cons c cs ih =>
    by_cases h1 : c = quoteChar
    · subst h1
      simp only [escapeChars, escapeChar, if_pos rfl, List.cons_append,
        List.append_assoc, List.nil_append]
      rw [parseStringBody.eq_def]
      simp [(by decide : ¬(backslashChar = quoteChar)), ih]
    · by_cases h2 : c = backslashChar
      · subst h2
        simp only [escapeChars, escapeChar,
          if_neg (by decide : ¬(backslashChar = quoteChar)), if_pos rfl,
          List.cons_append, List.append_assoc, List.nil_append]
        rw [parseStringBody.eq_def]
        simp [(by decide : ¬(backslashChar = quoteChar)), ih]
      · by_cases h3 : c.toNat < 32
        · have ha := readHexDigit_hexDigitChar (show c.toNat / 16 < 16 by omega)
          have hb := readHexDigit_hexDigitChar (Nat.mod_lt c.toNat (show 0 < 16 by omega))
          have hz : readHexDigit '0' = some 0 := by decide
          have hcode : ((0 * 16 + 0) * 16 + c.toNat / 16) * 16 + c.toNat % 16 =
              c.toNat := by omega
          simp only [escapeChars, escapeChar, controlEscape, if_neg h1,
            if_neg h2, if_pos h3, List.cons_append, List.append_assoc,
            List.nil_append]
          rw [parseStringBody.eq_def]
          simp only [(by decide : (backslashChar = quoteChar) = False),
            (by decide : ('u' = quoteChar) = False),
            (by decide : ('u' = backslashChar) = False),
            (by decide : ('u' = '/') = False),
            (by decide : ('u' = 'n') = False),
            (by decide : ('u' = 't') = False),
            (by decide : ('u' = 'r') = False),
            (by decide : ('u' = 'b') = False),
            (by decide : ('u' = 'f') = False),
            if_false, if_pos rfl, ite_false, ite_true]
          simp only [ha, hb, hz, ih, Option.map_some']
          rw [hcode, Char.ofNat_toNat]
        · simp only [escapeChars, escapeChar, if_neg h1, if_neg h2, if_neg h3,
            List.cons_append, List.nil_append]
          rw [parseStringBody.eq_def]
          simp [h1, h2, ih]

/-! ### Printer / parser round-trip: main theorem -/

mutual
/-- Fuel needed by `parseValue` on the printed form of a value. -/
def sizeJ : Json → Nat
  | .arr es => sizeA es + 2
  | .obj fs => sizeO fs + 2
  | _ => 1

/-- Fuel needed by `parseArrElems` on printed array elements. -/
def sizeA : JsonArr → Nat
  | .nil => 0
  | .cons j tl => sizeJ j + sizeA tl + 2

/-- Fuel needed by `parseObjFields` on printed object fields. -/
def sizeO : JsonObj → Nat
  | .nil => 0
  | .cons _ v tl => sizeJ v + sizeO tl + 3
end

theorem sizeJ_pos (j : Json) : 1 ≤ sizeJ j := by
  cases j <;> simp only [sizeJ] <;> omega

/-- Characters that legally follow a complete JSON value in the middle
of a document: end of input, a comma, a closing bracket or a closing
brace. -/
def delimNext : List Char → Bool
  | [] => true
  | c :: _ => c = ',' || c = ']' || c = rbraceChar

theorem delimNext_noDigitHead {rest : List Char}
    (h : delimNext rest = true) : noDigitHead rest = true := by
  cases rest with
  | nil => rfl
  | cons c cs =>
    simp only [delimNext, Bool.or_eq_true, decide_eq_true_eq] at h
    simp only [noDigitHead, List.head?_cons]
    rcases h with (h | h) | h <;> subst h <;> decide

theorem intToChars_ne_nil (n : Int) : intToChars n ≠ [] := by
  rw [intToChars]
  by_cases h : n < 0
  · simp [h]
  · simp only [if_neg h]
    exact natToCharsAux_ne_nil (by omega)

theorem intToChars_head (n : Int) :
    ∃ c cs, intToChars n = c :: cs ∧ (c = '-' ∨ isDigitChar c = true) := by
  by_cases h : n < 0
  · refine ⟨'-', natToChars n.natAbs, ?_, Or.inl rfl⟩
    rw [intToChars, if_pos h]
  · cases heq : natToChars n.toNat with
    | nil => exact absurd heq (natToCharsAux_ne_nil (by omega))
    | cons c cs =>
      refine ⟨c, cs, ?_, Or.inr ?_⟩
      · rw [intToChars, if_neg h, heq]
      · apply natToCharsAux_all_digits (n.toNat + 1) n.toNat
        rw [← natToChars, heq]
        exact List.mem_cons_self _ _

theorem numHead_ne {c : Char} (hc : c = '-' ∨ isDigitChar c = true) :
    ¬(c = 'n') ∧ ¬(c = 't') ∧ ¬(c = 'f') ∧ ¬(c = quoteChar) ∧
      ¬(c = '[') ∧ ¬(c = lbraceChar) ∧ ¬(c = ']') ∧ ¬(c = rbraceChar) := by
  rcases hc with hc | hc
  · subst hc
    repeat' constructor
    all_goals decide
  · repeat' constructor
    all_goals (intro h; subst h; revert hc; decide)

theorem parseValue_num (fuel : Nat) (n : Int) (rest : List Char)
    (h : noDigitHead rest = true) :
    parseValue (fuel + 1) (intToChars n ++ rest) = some (.num n, rest) := by
  obtain ⟨c, cs, heq, hc⟩ := intToChars_head n
  obtain ⟨h1, h2, h3, h4, h5, h6, _, _⟩ := numHead_ne hc
  have hnum := parseNumber_intToChars n rest h
  rw [heq] at hnum ⊢
  rw [List.cons_append, parseValue,
    if_neg h1, if_neg h2, if_neg h3, if_neg h4, if_neg h5, if_neg h6,
    ← List.cons_append, hnum]
  rfl

theorem parseValue_str (fuel : Nat) (s : String) (rest : List Char) :
    parseValue (fuel + 1) (stringifyString s ++ rest) =
      some (.str s, rest) := by
  rw [stringifyString, List.cons_append, parseValue,
    if_neg (by decide : ¬(quoteChar = 'n')),
    if_neg (by decide : ¬(quoteChar = 't')),
    if_neg (by decide : ¬(quoteChar = 'f')), if_pos rfl,
    List.append_assoc, List.singleton_append, parseStringBody_escape]
  rfl

theorem stringifyJson_head (j : Json) :
    ∃ c cs, stringifyJson j = c :: cs ∧ ¬(c = ']') ∧ ¬(c = rbraceChar) := by
  cases j with
  | num n =>
    obtain ⟨c, cs, heq, hc⟩ := intToChars_head n
    obtain ⟨_, _, _, _, _, _, h7, h8⟩ := numHead_ne hc
    exact ⟨c, cs, by rw [stringifyJson, heq], h7, h8⟩
  | bool b => cases b <;> (refine ⟨_, _, rfl, ?_, ?_⟩ <;> decide)
  | _ => refine ⟨_, _, rfl, ?_, ?_⟩ <;> decide

theorem stringifyArrElems_head (j : Json) (tl : JsonArr) :
    ∃ c cs, stringifyArrElems (.cons j tl) = c :: cs ∧
      ¬(c = ']') ∧ ¬(c = rbraceChar) := by
  obtain ⟨c, cs, heq, h1, h2⟩ := stringifyJson_head j
  cases tl with
  | nil => exact ⟨c, cs, by rw [stringifyArrElems, heq], h1, h2⟩
  | cons j2 tl2 =>
    refine ⟨c, cs ++ ',' :: stringifyArrElems (.cons j2 tl2), ?_, h1, h2⟩
    rw [stringifyArrElems, heq, List.cons_append]

theorem stringifyObjFields_head (k : String) (v : Json) (tl : JsonObj) :
    ∃ cs, stringifyObjFields (.cons k v tl) = quoteChar :: cs := by
  cases tl with
  | nil =>
    exact ⟨escapeChars k.data ++ [quoteChar] ++ ':' :: stringifyJson v,
      by rw [stringifyObjFields, stringifyString, List.cons_append,
        List.append_assoc]⟩
  | cons k2 v2 tl2 =>
    refine ⟨escapeChars k.data ++ [quoteChar] ++ ':' :: stringifyJson v ++
      ',' :: stringifyObjFields (.cons k2 v2 tl2), ?_⟩
    rw [stringifyObjFields, stringifyString]
    simp [List.append_assoc]

theorem parse_stringify_all (fuel : Nat) :
    (∀ j rest, sizeJ j ≤ fuel → delimNext rest = true →
      parseValue fuel (stringifyJson j ++ rest) = some (j, rest)) ∧
    (∀ es rest, es ≠ JsonArr.nil → sizeA es ≤ fuel →
      parseArrElems fuel (stringifyArrElems es ++ (']' :: rest)) =
        some (es, rest)) ∧
    (∀ fs rest, fs ≠ JsonObj.nil → sizeO fs ≤ fuel →
      parseObjFields fuel (stringifyObjFields fs ++ (rbraceChar :: rest)) =
        some (fs, rest)) := by
  induction fuel using Nat.strong_induction_on with
  | _ fuel ih =>
  refine ⟨?_, ?_, ?_⟩
  · intro j rest hsz hrest
    obtain ⟨f, rfl⟩ : ∃ f, fuel = f + 1 :=
      ⟨fuel - 1, by have := sizeJ_pos j; omega⟩
    cases j with
    | null => rfl
    | bool b => cases b <;> rfl
    | num n => exact parseValue_num f n rest (delimNext_noDigitHead hrest)
    | str s => exact parseValue_str f s rest
    | arr es =>
      rw [stringifyJson, List.cons_append, List.append_assoc,
        List.singleton_append]
      rw [parseValue, if_neg (by decide : ¬('[' = 'n')),
        if_neg (by decide : ¬('[' = 't')), if_neg (by decide : ¬('[' = 'f')),
        if_neg (by decide : ¬('[' = quoteChar)), if_pos rfl]
      simp only [sizeJ] at hsz
      cases es with
      | nil =>
        obtain ⟨f2, rfl⟩ : ∃ f2, f = f2 + 1 := ⟨f - 1, by omega⟩
        rw [stringifyArrElems, List.nil_append, parseArrBody, if_pos rfl]
      | cons j1 tl =>
        have hj1 := sizeJ_pos j1
        simp only [sizeA] at hsz
        obtain ⟨f2, rfl⟩ : ∃ f2, f = f2 + 1 := ⟨f - 1, by omega⟩
        obtain ⟨c, cs, heq, hc1, _⟩ := stringifyArrElems_head j1 tl
        rw [heq, List.cons_append, parseArrBody, if_neg hc1,
          ← List.cons_append, ← heq]
        rw [(ih f2 (by omega)).2.1 (JsonArr.cons j1 tl) rest
          (by intro hcontra; exact JsonArr.noConfusion hcontra)
          (by simp only [sizeA]; omega)]
        rfl
    | obj fs =>
      rw [stringifyJson, List.cons_append, List.append_assoc,
        List.singleton_append]
      rw [parseValue, if_neg (by decide : ¬(lbraceChar = 'n')),
        if_neg (by decide : ¬(lbraceChar = 't')),
        if_neg (by decide : ¬(lbraceChar = 'f')),
        if_neg (by decide : ¬(lbraceChar = quoteChar)),
        if_neg (by decide : ¬(lbraceChar = '[')), if_pos rfl]
      simp only [sizeJ] at hsz
      cases fs with
      | nil =>
        obtain ⟨f2, rfl⟩ : ∃ f2, f = f2 + 1 := ⟨f - 1, by omega⟩
        rw [stringifyObjFields, List.nil_append, parseObjBody, if_pos rfl]
      | cons k v tl =>
        have hv := sizeJ_pos v
        simp only [sizeO] at hsz
        obtain ⟨f2, rfl⟩ : ∃ f2, f = f2 + 1 := ⟨f - 1, by omega⟩
        obtain ⟨cs, heq⟩ := stringifyObjFields_head k v tl
        rw [heq, List.cons_append, parseObjBody,
          if_neg (by decide : ¬(quoteChar = rbraceChar)),
          ← List.cons_append, ← heq]
        rw [(ih f2 (by omega)).2.2 (JsonObj.cons k v tl) rest
          (by intro hcontra; exact JsonObj.noConfusion hcontra)
          (by simp only [sizeO]; omega)]
        rfl
  · intro es rest hne hsz
    cases es with
    | nil => exact absurd rfl hne
    | cons j tl =>
      have hj := sizeJ_pos j
      simp only [sizeA] at hsz
      obtain ⟨g, rfl⟩ : ∃ g, fuel = g + 1 := ⟨fuel - 1, by omega⟩
      cases tl with
      | nil =>
        rw [stringifyArrElems]
        simp only [parseArrElems]
        rw [(ih g (by omega)).1 j (']' :: rest) (by omega) rfl]
        obtain ⟨h2, rfl⟩ : ∃ h2, g = h2 + 1 := ⟨g - 1, by omega⟩
        show parseArrElemsRest (h2 + 1) j (']' :: rest) =
          some (JsonArr.cons j .nil, rest)
        rw [parseArrElemsRest, if_neg (by decide : ¬(']' = ',')), if_pos rfl]
      | cons j2 tl2 =>
        have ht : sizeA (JsonArr.cons j2 tl2) =
            sizeJ j2 + sizeA tl2 + 2 := rfl
        have hj2 := sizeJ_pos j2
        rw [stringifyArrElems, List.append_assoc, List.cons_append]
        simp only [parseArrElems]
        rw [(ih g (by omega)).1 j
          (',' :: (stringifyArrElems (JsonArr.cons j2 tl2) ++ (']' :: rest)))
          (by omega) rfl]
        obtain ⟨h2, rfl⟩ : ∃ h2, g = h2 + 1 := ⟨g - 1, by omega⟩
        show parseArrElemsRest (h2 + 1) j
            (',' :: (stringifyArrElems (JsonArr.cons j2 tl2) ++
              (']' :: rest))) =
          some (JsonArr.cons j (JsonArr.cons j2 tl2), rest)
        rw [parseArrElemsRest, if_pos rfl]
        rw [(ih h2 (by omega)).2.1 (JsonArr.cons j2 tl2) rest
          (by intro hcontra; exact JsonArr.noConfusion hcontra) (by omega)]
        rfl
  · intro fs rest hne hsz
    cases fs with
    | nil => exact absurd rfl hne
    | cons k v tl =>
      have hv := sizeJ_pos v
      simp only [sizeO] at hsz
      obtain ⟨g, rfl⟩ : ∃ g, fuel = g + 1 := ⟨fuel - 1, by omega⟩
      cases tl with
      | nil =>
        rw [stringifyObjFields, stringifyString]
        simp only [List.cons_append, List.append_assoc,
          List.singleton_append]
        simp only [parseObjFields, if_pos rfl]
        rw [parseStringBody_escape]
        obtain ⟨h2, rfl⟩ : ∃ h2, g = h2 + 1 := ⟨g - 1, by omega⟩
        show parseObjFieldVal (h2 + 1) k
            (':' :: (stringifyJson v ++ (rbraceChar :: rest))) =
          some (JsonObj.cons k v .nil, rest)
        rw [parseObjFieldVal, if_pos rfl]
        rw [(ih h2 (by omega)).1 v (rbraceChar :: rest) (by omega) rfl]
        obtain ⟨h3, rfl⟩ : ∃ h3, h2 = h3 + 1 := ⟨h2 - 1, by omega⟩
        show parseObjFieldsRest (h3 + 1) k v (rbraceChar :: rest) =
          some (JsonObj.cons k v .nil, rest)
        rw [parseObjFieldsRest, if_neg (by decide : ¬(rbraceChar = ',')),
          if_pos rfl]
      | cons k2 v2 tl2 =>
        have ht : sizeO (JsonObj.cons k2 v2 tl2) =
            sizeJ v2 + sizeO tl2 + 3 := rfl
        have hv2 := sizeJ_pos v2
        rw [stringifyObjFields, stringifyString]
        simp only [List.cons_append, List.append_assoc,
          List.singleton_append]
        simp only [parseObjFields, if_pos rfl]
        rw [parseStringBody_escape]
        obtain ⟨h2, rfl⟩ : ∃ h2, g = h2 + 1 := ⟨g - 1, by omega⟩
        show parseObjFieldVal (h2 + 1) k
            (':' :: (stringifyJson v ++
              (',' :: (stringifyObjFields (JsonObj.cons k2 v2 tl2) ++
                (rbraceChar :: rest))))) =
          some (JsonObj.cons k v (JsonObj.cons k2 v2 tl2), rest)
        rw [parseObjFieldVal, if_pos rfl]
        rw [(ih h2 (by omega)).1 v
          (',' :: (stringifyObjFields (JsonObj.cons k2 v2 tl2) ++
            (rbraceChar :: rest))) (by omega) rfl]
        obtain ⟨h3, rfl⟩ : ∃ h3, h2 = h3 + 1 := ⟨h2 - 1, by omega⟩
        show parseObjFieldsRest (h3 + 1) k v
            (',' :: (stringifyObjFields (JsonObj.cons k2 v2 tl2) ++
              (rbraceChar :: rest))) =
          some (JsonObj.cons k v (JsonObj.cons k2 v2 tl2), rest)
        rw [parseObjFieldsRest, if_pos rfl]
        rw [(ih h3 (by omega)).2.2 (JsonObj.cons k2 v2 tl2) rest
          (by intro hcontra; exact JsonObj.noConfusion hcontra) (by omega)]
        rfl

mutual
theorem sizeJ_le_length (j : Json) :
    sizeJ j ≤ 3 * (stringifyJson j).length := by
  cases j with
  | null => simp [sizeJ, stringifyJson]
  | bool b => cases b <;> simp [sizeJ, stringifyJson]
  | num n =>
    have := intToChars_ne_nil n
    simp only [sizeJ, stringifyJson]
    cases h : intToChars n with
    | nil => exact absurd h this
    | cons c cs => simp; omega
  | str s => simp [sizeJ, stringifyJson, stringifyString]; omega
  | arr es =>
    have := sizeA_le_length es
    simp only [sizeJ, stringifyJson, List.length_cons, List.length_append,
      List.length_singleton]
    omega
  | obj fs =>
    have := sizeO_le_length fs
    simp only [sizeJ, stringifyJson, List.length_cons, List.length_append,
      List.length_singleton]
    omega

theorem sizeA_le_length (es : JsonArr) :
    sizeA es ≤ 3 * (stringifyArrElems es).length + 3 := by
  cases es with
  | nil => simp [sizeA]
  | cons j tl =>
    have hj := sizeJ_le_length j
    cases tl with
    | nil =>
      simp only [sizeA, stringifyArrElems]
      omega
    | cons j2 tl2 =>
      have ht := sizeA_le_length (JsonArr.cons j2 tl2)
      simp only [sizeA, stringifyArrElems, List.length_append,
        List.length_cons] at *
      omega

theorem sizeO_le_length (fs : JsonObj) :
    sizeO fs ≤ 3 * (stringifyObjFields fs).length + 3 := by
  cases fs with
  | nil => simp [sizeO]
  | cons k v tl =>
    have hv := sizeJ_le_length v
    cases tl with
    | nil =>
      simp only [sizeO, stringifyObjFields, List.length_append,
        List.length_cons]
      omega
    | cons k2 v2 tl2 =>
      have ht := sizeO_le_length (JsonObj.cons k2 v2 tl2)
      have hk : 2 ≤ (stringifyString k).length := by
        simp [stringifyString]
      simp only [sizeO, stringifyObjFields, List.length_append,
        List.length_cons] at *
      omega
end

/-- The model `JSON.parse` inverts the model `JSON.stringify` on every
JSON value: the metadata round-trip at the heart of the retriever. -/
theorem jsonParse_jsonStringify (j : Json) :
    jsonParse (jsonStringify j) = some j := by
  have hlen := sizeJ_le_length j
  have h := (parse_stringify_all (3 * (stringifyJson j).length + 3)).1 j []
    (by omega) rfl
  rw [List.append_nil] at h
  show (match parseValue (3 * (stringifyJson j).length + 3)
      (stringifyJson j) with
    | some (v, []) => some v
    | _ => none) = some j
  rw [h]

/-! ### The client wrapper (`src/client.ts`)

The `WeaviateClientWrapper` class is embedded as follows.  JavaScript
promises whose outcome is fixed once settled become `Except String`
values: `this.initPromise` is the memoized outcome of the single
`initialize()` call that the constructor starts, and `await`ing it
either rethrows the stored connection error or yields the connected
client.  The `weaviate-client` transport is an external collaborator and
becomes a record of response functions; the store world counts how many
underlying connection attempts have been issued. -/

/-- `WeaviateClientParams` from `src/client.ts`. -/
structure WeaviateClientParams where
  host : String
  port : Option Nat
  grpcPort : Option Nat
  secure : Option Bool
  apiKey : Option String
  timeout : Option Nat

/-- `CollectionConfig` from `src/client.ts`: the argument of
`createCollection`. -/
structure PropertySpec where
  name : String
  dataType : String
  description : Option String

/-- `CollectionConfig` from `src/client.ts`. -/
structure CollectionConfig where
  name : String
  description : Option String
  properties : Option (List PropertySpec)

/-- `weaviate.configure.dataType.TEXT` and friends. -/
inductive WeaviateDataType where
  | text
  deriving DecidableEq

/-- `weaviate.configure.vectorizer.none()` (externally supplied
vectors) versus a store-side vectorizer module. -/
inductive VectorizerConfig where
  | selfProvided
  | storeComputed (moduleName : String)
  deriving DecidableEq

/-- One property in a `collections.create` request. -/
structure CreatePropertyDef where
  name : String
  dataType : WeaviateDataType
  description : Option String
  deriving DecidableEq

/-- The request `createCollection` hands to `this.client.collections.create`. -/
structure CreateRequest where
  name : String
  description : Option String
  vectorizers : VectorizerConfig
  properties : List CreatePropertyDef
  deriving DecidableEq

/-- Scalars carried in vectors and distance scores.  The claims never
compute with them, so JavaScript numbers are modelled by integers. -/
abbrev JsNumber := Int

/-- One object as handed to `insertObjects`. -/
structure InsertObjectArg where
  properties : List (String × Json)
  vector : List JsNumber
  id : Option String

/-- One entry of the `insertMany` batch built by `insertObjects`. -/
structure InsertManyEntry where
  id : Option String
  properties : List (String × Json)
  vectors : List JsNumber

/-- One raw object of a `nearVector` response: its stored properties and
the optionally reported distance (`returnMetadata: ["distance"]`). -/
structure RawResultObject where
  contentProp : Option String
  contentTypeProp : Option String
  metadataProp : Option String
  distance : Option JsNumber

/-- Options assembled by `search` for `collection.query.nearVector`. -/
structure NearVectorOptions where
  limit : Nat
  returnDistance : Bool
  distance : Option JsNumber
  filters : Option String

/-- The transport calls the wrapper can issue, for tracing. -/
inductive StoreCall where
  | configGet (collectionName : String)
  | create (req : CreateRequest)
  | insertMany (collectionName : String) (objs : List InsertManyEntry)
  | nearVector (collectionName : String) (vector : List JsNumber)
      (opts : NearVectorOptions)
  | deleteById (collectionName : String) (id : String)
  | deleteCollection (collectionName : String)
  | aggregateOverAll (collectionName : String)

/-- The connected `weaviate-client` handle, as a record of response
functions (the vector-store transport collaborator of the spec). -/
structure WeaviateClient where
  configGet : String → Except String String
  create : CreateRequest → Except String Unit
  insertMany : String → List InsertManyEntry → Except String Unit
  nearVector : String → List JsNumber → NearVectorOptions →
    Except String (List RawResultObject)
  deleteById : String → String → Except String Unit
  dropCollection : String → Except String Unit
  aggregateCount : String → Except String Nat

/-- The environment behind `weaviate.connectToWeaviateCloud` /
`weaviate.connectToLocal`: what one connection attempt would return. -/
structure ConnectEnv where
  connectToWeaviateCloud : String → Except String WeaviateClient
  connectToLocal : String → Nat → Nat → Except String WeaviateClient

/-- State of the external store world: how many underlying connection
attempts have been issued so far. -/
structure StoreWorld where
  connectAttempts : Nat

/-- The private `initialize()` method (`src/client.ts` lines 122-149):
issues exactly one connection attempt, cloud when an API key is
configured, otherwise local with the 8080 / 50051 defaults. -/
def initOnce (env : ConnectEnv) (params : WeaviateClientParams)
    (w : StoreWorld) : StoreWorld × Except String WeaviateClient :=
  (⟨w.connectAttempts + 1⟩,
    match params.apiKey with
    | some _ => env.connectToWeaviateCloud params.host
    | none =>
      env.connectToLocal params.host (params.port.getD 8080)
        (params.grpcPort.getD 50051))

/-- The `WeaviateClientWrapper` object: its constructor argument and the
memoized outcome of `this.initPromise`. -/
structure WeaviateClientWrapper where
  params : WeaviateClientParams
  initResult : Except String WeaviateClient

/-- The constructor (`src/client.ts` lines 117-120): it stores the
params and starts `initialize()` at once, keeping its promise. -/
def mkWrapper (env : ConnectEnv) (params : WeaviateClientParams)
    (w : StoreWorld) : StoreWorld × WeaviateClientWrapper :=
  let r := initOnce env params w
  (r.1, ⟨params, r.2⟩)

/-- `ensureInitialized()`: awaiting the stored promise rethrows the
stored connection failure or yields the connected client; it never
issues a new connection attempt. -/
def ensureInitialized (wrapper : WeaviateClientWrapper) :
    Except String WeaviateClient :=
  wrapper.initResult

/-- The fixed property schema `createCollection` always provisions
(`src/client.ts` lines 191-202). -/
def createProperties : List CreatePropertyDef :=
  [⟨"content", .text, some "Document content"⟩,
   ⟨"metadata", .text, some "Document metadata as JSON string"⟩]

/-- The `collections.create` request built by `createCollection`
(`src/client.ts` lines 187-203). -/
def createRequest (config : CollectionConfig) : CreateRequest :=
  { name := config.name
    description := config.description
    vectorizers := .selfProvided
    properties := createProperties }

/-- Body of `collectionExists` after initialization: the lookup is
wrapped in `try/catch`, every failure becoming `false`. -/
def collectionExistsBody (c : WeaviateClient) (collectionName : String) :
    Bool :=
  match c.configGet collectionName with
  | .ok _ => true
  | .error _ => false

/-- `collectionExists` (`src/client.ts` lines 166-175). -/
def wrapperCollectionExists (wrapper : WeaviateClientWrapper)
    (collectionName : String) : Except String Bool :=
  (ensureInitialized wrapper).map
    (fun c => collectionExistsBody c collectionName)

/-- `createCollection` (`src/client.ts` lines 180-204), returning both
the trace of transport calls issued and the outcome. -/
def wrapperCreateCollection (wrapper : WeaviateClientWrapper)
    (config : CollectionConfig) :
    List StoreCall × Except String Unit :=
  match ensureInitialized wrapper with
  | .error e => ([], .error e)
  | .ok c =>
    if collectionExistsBody c config.name then
      ([.configGet config.name], .ok ())
    else
      ([.configGet config.name, .create (createRequest config)],
        c.create (createRequest config))

/-- The `insertMany` batch `insertObjects` builds from its argument
(`src/client.ts` lines 221-230): ids kept when present, properties
passed through, the single vector stored under `vectors`. -/
def toInsertManyEntry (obj : InsertObjectArg) : InsertManyEntry :=
  { id := obj.id, properties := obj.properties, vectors := obj.vector }

/-- `insertObjects` (`src/client.ts` lines 209-231). -/
def wrapperInsertObjects (wrapper : WeaviateClientWrapper)
    (collectionName : String) (objects : List InsertObjectArg) :
    List StoreCall × Except String Unit :=
  match ensureInitialized wrapper with
  | .error e => ([], .error e)
  | .ok c =>
    ([.insertMany collectionName (objects.map toInsertManyEntry)],
      c.insertMany collectionName (objects.map toInsertManyEntry))

/-- The options `search` assembles (`src/client.ts` lines 259-264):
the distance metric is always requested back; the `distance` cutoff and
the `filters` are forwarded only when the caller supplied them. -/
def searchOptions (limit : Option Nat) (distance : Option JsNumber)
    (filters : Option String) : NearVectorOptions :=
  { limit := limit.getD 10
    returnDistance := true
    distance := distance
    filters := filters }

/-- The `SearchResult` record (`src/client.ts` lines 96-106, 266-269). -/
structure SearchResult where
  objects : List RawResultObject
  total : Option Nat

/-- `search` (`src/client.ts` lines 246-270). -/
def wrapperSearch (wrapper : WeaviateClientWrapper)
    (collectionName : String) (vector : List JsNumber)
    (limit : Option Nat) (distance : Option JsNumber)
    (filters : Option String) :
    List StoreCall × Except String SearchResult :=
  match ensureInitialized wrapper with
  | .error e => ([], .error e)
  | .ok c =>
    ([.nearVector collectionName vector
        (searchOptions limit distance filters)],
      (c.nearVector collectionName vector
        (searchOptions limit distance filters)).map
        (fun objs => { objects := objs, total := some objs.length }))

/-- The per-id loop of `deleteObjects`: each id is deleted
individually, stopping at the first transport error. -/
def deleteEachById (c : WeaviateClient) (collectionName : String) :
    List String → List StoreCall × Except String Unit
  | [] => ([], .ok ())
  | id :: rest =>
    match c.deleteById collectionName id with
    | .error e => ([.deleteById collectionName id], .error e)
    | .ok _ =>
      let r := deleteEachById c collectionName rest
      (.deleteById collectionName id :: r.1, r.2)

/-- `deleteObjects` (`src/client.ts` lines 275-282). -/
def wrapperDeleteObjects (wrapper : WeaviateClientWrapper)
    (collectionName : String) (ids : List String) :
    List StoreCall × Except String Unit :=
  match ensureInitialized wrapper with
  | .error e => ([], .error e)
  | .ok c => deleteEachById c collectionName ids

/-- `deleteCollection` (`src/client.ts` lines 287-290). -/
def wrapperDeleteCollection (wrapper : WeaviateClientWrapper)
    (collectionName : String) : List StoreCall × Except String Unit :=
  match ensureInitialized wrapper with
  | .error e => ([], .error e)
  | .ok c =>
    ([.deleteCollection collectionName], c.dropCollection collectionName)

/-- `getCollectionStats` (`src/client.ts` lines 295-310). -/
def wrapperGetCollectionStats (wrapper : WeaviateClientWrapper)
    (collectionName : String) :
    List StoreCall × Except String (String × Nat) :=
  match ensureInitialized wrapper with
  | .error e => ([], .error e)
  | .ok c =>
    match c.configGet collectionName with
    | .error e => ([.configGet collectionName], .error e)
    | .ok configName =>
      match c.aggregateCount collectionName with
      | .error e =>
        ([.configGet collectionName, .aggregateOverAll collectionName],
          .error e)
      | .ok count =>
        ([.configGet collectionName, .aggregateOverAll collectionName],
          .ok (configName, count))

/-- `getClient` (`src/client.ts` lines 158-161). -/
def wrapperGetClient (wrapper : WeaviateClientWrapper) :
    Except String WeaviateClient :=
  ensureInitialized wrapper

/-- The public operations of the wrapper, each of whose bodies starts
with `await this.ensureInitialized()`. -/
inductive WrapperOp where
  | getClient
  | collectionExists (collectionName : String)
  | createCollection (config : CollectionConfig)
  | insertObjects (collectionName : String) (objects : List InsertObjectArg)
  | search (collectionName : String) (vector : List JsNumber)
      (limit : Option Nat) (distance : Option JsNumber)
      (filters : Option String)
  | deleteObjects (collectionName : String) (ids : List String)
  | deleteCollection (collectionName : String)
  | getCollectionStats (collectionName : String)

/-- The value an operation resolves with. -/
inductive OpResult where
  | clientHandle
  | existsResult (b : Bool)
  | unitResult
  | searchResult (r : SearchResult)
  | statsResult (name : String) (objectCount : Nat)

/-- Running one wrapper operation.  The store world is threaded through
untouched: no method body contains a connection attempt — only the
constructor-started `initialize()` does. -/
def applyWrapperOp (wrapper : WeaviateClientWrapper) (w : StoreWorld) :
    WrapperOp → StoreWorld × Except String OpResult
  | .getClient =>
    (w, (wrapperGetClient wrapper).map fun _ => .clientHandle)
  | .collectionExists n =>
    (w, (wrapperCollectionExists wrapper n).map (.existsResult ·))
  | .createCollection cfg =>
    (w, (wrapperCreateCollection wrapper cfg).2.map fun _ => .unitResult)
  | .insertObjects n objs =>
    (w, (wrapperInsertObjects wrapper n objs).2.map fun _ => .unitResult)
  | .search n v l d f =>
    (w, (wrapperSearch wrapper n v l d f).2.map (.searchResult ·))
  | .deleteObjects n ids =>
    (w, (wrapperDeleteObjects wrapper n ids).2.map fun _ => .unitResult)
  | .deleteCollection n =>
    (w, (wrapperDeleteCollection wrapper n).2.map fun _ => .unitResult)
  | .getCollectionStats n =>
    (w, (wrapperGetCollectionStats wrapper n).2.map
      fun p => .statsResult p.1 p.2)

/-- Running a sequence of wrapper operations, collecting outcomes. -/
def runOps (wrapper : WeaviateClientWrapper) :
    StoreWorld → List WrapperOp → StoreWorld × List (Except String OpResult)
  | w, [] => (w, [])
  | w, op :: rest =>
    let r := applyWrapperOp wrapper w op
    let rs := runOps wrapper r.1 rest
    (rs.1, r.2 :: rs.2)

/-- The outcome each operation has once the single connection attempt
has succeeded with client `c`: exactly the operation's body. -/
def opOutcomeWith (c : WeaviateClient) : WrapperOp → Except String OpResult
  | .getClient => .ok .clientHandle
  | .collectionExists n => .ok (.existsResult (collectionExistsBody c n))
  | .createCollection cfg =>
    (if collectionExistsBody c cfg.name then .ok ()
      else c.create (createRequest cfg)).map fun _ => .unitResult
  | .insertObjects n objs =>
    (c.insertMany n (objs.map toInsertManyEntry)).map fun _ => .unitResult
  | .search n v l d f =>
    ((c.nearVector n v (searchOptions l d f)).map
      (fun objs => ({ objects := objs, total := some objs.length } :
        SearchResult))).map (.searchResult ·)
  | .deleteObjects n ids =>
    (deleteEachById c n ids).2.map fun _ => .unitResult
  | .deleteCollection n => (c.dropCollection n).map fun _ => .unitResult
  | .getCollectionStats n =>
    match c.configGet n with
    | .error e => .error e
    | .ok configName =>
      match c.aggregateCount n with
      | .error e => .error e
      | .ok count => .ok (.statsResult configName count)

/-! ### The indexer (`src/indexer.ts`) -/

/-- One chunk/embedding pair as produced by the embedding collaborator
for a document: `getEmbeddingDocuments` aligns one sub-document view
(`data`, `dataType`, `metadata`) with each returned embedding. -/
structure EmbeddingChunk where
  data : String
  dataType : Option String
  metadata : Option JsonObj
  embedding : List JsNumber

/-- The properties object the indexer builds for one chunk
(`src/indexer.ts`, store object construction): `content` is the chunk
text, `contentType` falls back to the empty string, and `metadata` is
`JSON.stringify(chunk.metadata || {})`. -/
def chunkProperties (ch : EmbeddingChunk) : List (String × Json) :=
  [("content", .str ch.data),
   ("contentType", .str (ch.dataType.getD "")),
   ("metadata", .str (jsonStringify (.obj (ch.metadata.getD .nil))))]

/-- The store object the indexer builds for one chunk, with a freshly
generated uuid. -/
def chunkToObject (uuid : String) (ch : EmbeddingChunk) :
    InsertObjectArg :=
  { properties := chunkProperties ch
    vector := ch.embedding
    id := some uuid }

/-- The flattened batch the indexer passes to `insertObjects`: one store
object per chunk, documents in order, chunks in order within each
document (`objects = embeddings.map(...).flat()`).  `uuid i j` stands
for the `uuidv4()` value drawn for chunk `j` of document `i`. -/
def weaviateIndexerObjects (uuid : Nat → Nat → String)
    (docs : List (List EmbeddingChunk)) : List InsertObjectArg :=
  (docs.enum.map (fun di =>
    di.2.enum.map (fun cj => chunkToObject (uuid di.1 cj.1) cj.2))).flatten

/-- The `content` property value of a store object. -/
def objectContent (o : InsertObjectArg) : Option Json :=
  (o.properties.lookup "content")

/-- The stored `metadata` property value of a store object. -/
def objectMetadata (o : InsertObjectArg) : Option Json :=
  (o.properties.lookup "metadata")

/-! ### The retriever (`src/retriever.ts`) -/

/-- The metadata value the retriever reconstructs from the stored
`metadata` property: absent or empty means no metadata (JavaScript
truthiness of `properties.metadata`); otherwise `JSON.parse`, falling
back on parse failure to wrapping the raw string under a `metadata`
key. -/
def parsedMetadata (stored : Option String) : Option Json :=
  match stored with
  | none => none
  | some s =>
    if s.isEmpty then none
    else
      match jsonParse s with
      | some j => some j
      | none => some (.obj (.cons "metadata" (.str s) .nil))

/-- The statement `metadata._distance = obj.metadata.distance` of the
retriever, in strict mode: on a JSON object the property is created or
overwritten; on a JSON array the property is attached but invisible to
the JSON view of the array, modelled as leaving it unchanged; on a
primitive value strict mode raises a `TypeError`, modelled as `none`. -/
def setDistanceProp (j : Json) (d : JsNumber) : Option Json :=
  match j with
  | .obj fs => some (.obj (fs.set "_distance" (.num d)))
  | .arr es => some (.arr es)
  | _ => none

/-- A document as returned by the retriever
(`Document.fromData(contentText, contentType, metadata)`). -/
structure RetrievedDocument where
  data : String
  dataType : String
  metadata : Option Json
  deriving DecidableEq

/-- The result mapping of the retriever (`src/retriever.ts`
lines 451-475) for one raw result object. -/
def mapResultObject (obj : RawResultObject) :
    Except String RetrievedDocument :=
  let contentText := obj.contentProp.getD ""
  let contentType := obj.contentTypeProp.getD ""
  let md := parsedMetadata obj.metadataProp
  match obj.distance, md with
  | some d, some j =>
    if jsTruthy j then
      match setDistanceProp j d with
      | some j2 => .ok ⟨contentText, contentType, some j2⟩
      | none =>
        .error "TypeError: Cannot create property on primitive metadata"
    else .ok ⟨contentText, contentType, md⟩
  | _, _ => .ok ⟨contentText, contentType, md⟩

/-- The retriever maps every result object; a thrown exception fails
the whole query. -/
def retrieverDocuments (objs : List RawResultObject) :
    Except String (List RetrievedDocument) :=
  objs.mapM mapResultObject

/-- The `str`-payload of a property value, used to read back what was
stored. -/
def asStoredString : Option Json → Option String
  | some (.str s) => some s
  | _ => none

/-- The raw result object the store hands back for a previously
inserted object, under the store-faithfulness assumption that stored
properties are returned verbatim; `d` is the distance the store reports
for this result. -/
def storedRawObject (o : InsertObjectArg) (d : Option JsNumber) :
    RawResultObject :=
  { contentProp := asStoredString (o.properties.lookup "content")
    contentTypeProp := asStoredString (o.properties.lookup "contentType")
    metadataProp := asStoredString (o.properties.lookup "metadata")
    distance := d }

/-- Whether a retrieved document's metadata carries the reserved
`_distance` key. -/
def hasDistanceKey (doc : RetrievedDocument) : Bool :=
  match doc.metadata with
  | some (.obj fs) => fs.hasKey "_distance"
  | _ => false

/-! ### The plugin registration root (the `weaviate` plugin function) -/

/-- One entry of the plugin's `collections` array
(`WeaviateCollectionParams`).  The embedder reference is opaque: the
plugin only checks its presence. -/
structure WeaviateCollectionParams where
  collectionName : String
  embedder : Option Unit
  createCollectionIfMissing : Option Bool
  deriving DecidableEq

/-- An action registered on the Genkit instance. -/
inductive RegisteredAction where
  | retriever (name : String)
  | indexer (name : String)
  deriving DecidableEq

/-- The two actions one loop iteration registers for a collection:
`weaviateRetriever` then `weaviateIndexer`, both named
`weaviate/<collectionName>`. -/
def registerFor (c : WeaviateCollectionParams) : List RegisteredAction :=
  [.retriever ("weaviate/" ++ c.collectionName),
   .indexer ("weaviate/" ++ c.collectionName)]

/-- The error the plugin throws for a collection without an embedder. -/
def embedderRequiredMsg (collectionName : String) : String :=
  "Embedder is required for collection '" ++ collectionName ++ "'"

/-- The plugin's per-collection loop: for each entry, fail with
`embedderRequiredMsg` when no embedder is configured (registering
nothing for that entry or any later one — the throw aborts the loop),
otherwise register the retriever and indexer for it and continue.
Returns the actions registered and the error, if any. -/
def setupCollections :
    List WeaviateCollectionParams → List RegisteredAction × Option String
  | [] => ([], none)
  | c :: rest =>
    match c.embedder with
    | none => ([], some (embedderRequiredMsg c.collectionName))
    | some _ =>
      let r := setupCollections rest
      (registerFor c ++ r.1, r.2)

/-! ### Helper lemmas about the wrapper operation runner -/

@[simp] theorem exceptMap_error {α β : Type} (f : α → β) (e : String) :
    Except.map f (Except.error e : Except String α) = Except.error e := rfl

@[simp] theorem exceptMap_ok {α β : Type} (f : α → β) (a : α) :
    Except.map f (Except.ok a : Except String α) = Except.ok (f a) := rfl

theorem applyWrapperOp_world (wrapper : WeaviateClientWrapper)
    (w : StoreWorld) (op : WrapperOp) :
    (applyWrapperOp wrapper w op).1 = w := by
  cases op <;> rfl

theorem runOps_world (wrapper : WeaviateClientWrapper) (w : StoreWorld)
    (ops : List WrapperOp) : (runOps wrapper w ops).1 = w := by
  induction ops generalizing w with
  | nil => rfl
  | cons op rest ih =>
    simp only [runOps]
    rw [applyWrapperOp_world]
    exact ih w

theorem applyWrapperOp_error (wrapper : WeaviateClientWrapper)
    (w : StoreWorld) (op : WrapperOp) (e : String)
    (h : wrapper.initResult = .error e) :
    (applyWrapperOp wrapper w op).2 = .error e := by
  cases op <;>
    simp [applyWrapperOp, wrapperGetClient, wrapperCollectionExists,
      wrapperCreateCollection, wrapperInsertObjects, wrapperSearch,
      wrapperDeleteObjects, wrapperDeleteCollection,
      wrapperGetCollectionStats, ensureInitialized, h]

theorem applyWrapperOp_ok (wrapper : WeaviateClientWrapper)
    (w : StoreWorld) (op : WrapperOp) (c : WeaviateClient)
    (h : wrapper.initResult = .ok c) :
    (applyWrapperOp wrapper w op).2 = opOutcomeWith c op := by
  cases op with
  | createCollection cfg =>
    simp only [applyWrapperOp, wrapperCreateCollection, ensureInitialized,
      h, opOutcomeWith]
    by_cases hex : collectionExistsBody c cfg.name <;> simp [hex]
  | getCollectionStats n =>
    simp only [applyWrapperOp, wrapperGetCollectionStats, ensureInitialized,
      h, opOutcomeWith]
    cases c.configGet n with
    | error e => simp
    | ok nm => cases c.aggregateCount n <;> simp
  | _ =>
    simp [applyWrapperOp, wrapperGetClient, wrapperCollectionExists,
      wrapperInsertObjects, wrapperSearch, wrapperDeleteObjects,
      wrapperDeleteCollection, ensureInitialized, h, opOutcomeWith]

theorem runOps_results_error (wrapper : WeaviateClientWrapper)
    (w : StoreWorld) (ops : List WrapperOp) (e : String)
    (h : wrapper.initResult = .error e) :
    (runOps wrapper w ops).2 = ops.map fun _ => .error e := by
  induction ops generalizing w with
  | nil => rfl
  | cons op rest ih =>
    simp only [runOps, List.map_cons]
    rw [applyWrapperOp_error wrapper w op e h, applyWrapperOp_world]
    rw [ih w]

theorem runOps_results_ok (wrapper : WeaviateClientWrapper)
    (w : StoreWorld) (ops : List WrapperOp) (c : WeaviateClient)
    (h : wrapper.initResult = .ok c) :
    (runOps wrapper w ops).2 = ops.map (opOutcomeWith c) := by
  induction ops generalizing w with
  | nil => rfl
  | cons op rest ih =>
    simp only [runOps, List.map_cons]
    rw [applyWrapperOp_ok wrapper w op c h, applyWrapperOp_world]
    rw [ih w]

/-! ### Concrete instances used in witnesses and counterexamples -/

/-- A connected client whose collection lookup always fails (no
collection exists) and whose other primitives succeed trivially. -/
def clientEx : WeaviateClient :=
  { configGet := fun _ => .error "not found"
    create := fun _ => .ok ()
    insertMany := fun _ _ => .ok ()
    nearVector := fun _ _ _ => .ok []
    deleteById := fun _ _ => .ok ()
    dropCollection := fun _ => .ok ()
    aggregateCount := fun _ => .ok 0 }

/-- An environment in which the one connection attempt succeeds. -/
def envOkEx : ConnectEnv :=
  ⟨fun _ => .ok clientEx, fun _ _ _ => .ok clientEx⟩

/-- An environment in which the one connection attempt fails. -/
def envFailEx : ConnectEnv :=
  ⟨fun _ => .error "connection refused",
    fun _ _ _ => .error "connection refused"⟩

/-- Local connection parameters (no API key). -/
def paramsEx : WeaviateClientParams :=
  ⟨"localhost", none, none, none, none, none⟩

/-- A wrapper whose single connection attempt has succeeded with
`clientEx` (so no collection exists yet). -/
def wrapperNoColl : WeaviateClientWrapper := ⟨paramsEx, .ok clientEx⟩

/-- A wrapper whose single connection attempt has failed. -/
def wrapperConnFailed : WeaviateClientWrapper :=
  ⟨paramsEx, .error "connection refused"⟩

/-! ### Claim theorems -/

/-- Claim C1: for every wrapper instance, the underlying store
connection is attempted at most once — any sequence of operations run
on a freshly constructed wrapper leaves exactly the one
constructor-started connection attempt in the store world; if that
single attempt failed with `e`, every operation fails with `e`; if it
succeeded with client `c`, every operation proceeds with its own body
against `c`. -/
theorem C1_single_connection_attempt (env : ConnectEnv)
    (params : WeaviateClientParams) (w0 : StoreWorld)
    (ops : List WrapperOp) :
    (runOps (mkWrapper env params w0).2 (mkWrapper env params w0).1
        ops).1.connectAttempts = w0.connectAttempts + 1 ∧
    (∀ e, (mkWrapper env params w0).2.initResult = .error e →
      (runOps (mkWrapper env params w0).2 (mkWrapper env params w0).1
        ops).2 = ops.map fun _ => .error e) ∧
    (∀ c, (mkWrapper env params w0).2.initResult = .ok c →
      (runOps (mkWrapper env params w0).2 (mkWrapper env params w0).1
        ops).2 = ops.map (opOutcomeWith c)) := by
  refine ⟨?_, ?_, ?_⟩
  · rw [runOps_world]
    rfl
  · intro e he
    exact runOps_results_error _ _ ops e he
  · intro c hc
    exact runOps_results_ok _ _ ops c hc

/-- Witness for C1 at a concrete environment, parameter record and
operation list. -/
theorem C1_single_connection_attempt_witness :
    (runOps (mkWrapper envOkEx paramsEx ⟨0⟩).2
        (mkWrapper envOkEx paramsEx ⟨0⟩).1
        [WrapperOp.getClient, WrapperOp.collectionExists "Docs"]).2 =
      [WrapperOp.getClient, WrapperOp.collectionExists "Docs"].map
        (opOutcomeWith clientEx) :=
  (C1_single_connection_attempt envOkEx paramsEx ⟨0⟩
    [WrapperOp.getClient, WrapperOp.collectionExists "Docs"]).2.2
    clientEx rfl

/-- Claim C4 counterexample: constructing a wrapper with no operation
invoked at all already issues one connection attempt — the claim that no
attempt is initiated at construction time fails on the code, where the
constructor runs `this.initPromise = this.initialize()`. -/
theorem C4_lazy_connection_counterexample :
    (mkWrapper envFailEx paramsEx ⟨0⟩).1.connectAttempts = 1 ∧
    ¬((mkWrapper envFailEx paramsEx ⟨0⟩).1.connectAttempts = 0) :=
  ⟨rfl, by decide⟩

/-- Claim C4 (amended): the single connection attempt is initiated
eagerly, at construction time — the constructor issues exactly one
attempt, and no sequence of subsequent operations issues another. -/
theorem C4_eager_connection_amended (env : ConnectEnv)
    (params : WeaviateClientParams) (w0 : StoreWorld)
    (ops : List WrapperOp) :
    (mkWrapper env params w0).1.connectAttempts = w0.connectAttempts + 1 ∧
    (runOps (mkWrapper env params w0).2 (mkWrapper env params w0).1
        ops).1.connectAttempts = w0.connectAttempts + 1 := by
  refine ⟨rfl, ?_⟩
  rw [runOps_world]
  rfl

/-- Claim C8 counterexample: when the single connection attempt failed,
`collectionExists` rethrows that connection error instead of returning a
boolean — only the collection lookup is inside its `try/catch`, not
`ensureInitialized`. -/
theorem C8_collectionExists_throws_counterexample :
    wrapperCollectionExists wrapperConnFailed "Docs" =
      .error "connection refused" ∧
    ¬(∃ b, wrapperCollectionExists wrapperConnFailed "Docs" = .ok b) := by
  refine ⟨rfl, ?_⟩
  rintro ⟨b, hb⟩
  exact Except.noConfusion hb

/-- Claim C8 (amended): once the connection attempt has succeeded,
`collectionExists` always resolves with a boolean and never throws: a
failing lookup yields `false`, a succeeding one yields `true`; a failed
connection attempt, however, propagates like in every other
operation. -/
theorem C8_collectionExists_never_throws_amended
    (wrapper : WeaviateClientWrapper) (c : WeaviateClient)
    (collectionName : String)
    (hinit : ensureInitialized wrapper = .ok c) :
    wrapperCollectionExists wrapper collectionName =
      .ok (collectionExistsBody c collectionName) ∧
    (∀ e, c.configGet collectionName = .error e →
      wrapperCollectionExists wrapper collectionName = .ok false) ∧
    (∀ cfg, c.configGet collectionName = .ok cfg →
      wrapperCollectionExists wrapper collectionName = .ok true) := by
  refine ⟨?_, ?_, ?_⟩
  · simp [wrapperCollectionExists, hinit]
  · intro e he
    simp [wrapperCollectionExists, hinit, collectionExistsBody, he]
  · intro cfg hcfg
    simp [wrapperCollectionExists, hinit, collectionExistsBody, hcfg]


/-- Witness for the amended C8 at a concrete wrapper and client. -/
theorem C8_collectionExists_never_throws_amended_witness :
    wrapperCollectionExists wrapperNoColl "Docs" = .ok false :=
  (C8_collectionExists_never_throws_amended wrapperNoColl clientEx
    "Docs" rfl).2.1 "not found" rfl

/-- Claim C2 counterexample: for a collection that does not exist, the
create request the wrapper issues declares exactly two properties,
`content` and `metadata` — there is no `contentType` property in the
provisioned schema, contradicting the claimed three-property schema. -/
theorem C2_createCollection_schema_counterexample :
    (wrapperCreateCollection wrapperNoColl ⟨"Docs", none, none⟩).1 =
      [.configGet "Docs",
        .create (createRequest ⟨"Docs", none, none⟩)] ∧
    (createRequest ⟨"Docs", none, none⟩).properties.map
      (fun p => p.name) = ["content", "metadata"] ∧
    ¬("contentType" ∈ (createRequest ⟨"Docs", none, none⟩).properties.map
      (fun p => p.name)) := by
  refine ⟨rfl, rfl, ?_⟩
  decide

/-- Claim C2 (amended): for every collection name that does not already
exist, `createCollection` issues exactly one create request, with the
vectorizer fixed to externally supplied vectors and a fixed two-property
schema — `content` (text) and `metadata` (text holding JSON-encoded
data); the `contentType` value is written per object by the indexer but
is not declared in the provisioned schema. -/
theorem C2_createCollection_schema_amended
    (wrapper : WeaviateClientWrapper) (c : WeaviateClient)
    (config : CollectionConfig) (e : String)
    (hinit : ensureInitialized wrapper = .ok c)
    (hmiss : c.configGet config.name = .error e) :
    (wrapperCreateCollection wrapper config).1 =
      [.configGet config.name, .create (createRequest config)] ∧
    (createRequest config).vectorizers = VectorizerConfig.selfProvided ∧
    (createRequest config).properties.map
      (fun p => (p.name, p.dataType)) =
      [("content", WeaviateDataType.text),
       ("metadata", WeaviateDataType.text)] ∧
    (wrapperCreateCollection wrapper config).2 =
      c.create (createRequest config) := by
  have h' : wrapper.initResult = .ok c := hinit
  have hbody : collectionExistsBody c config.name = false := by
    simp [collectionExistsBody, hmiss]
  refine ⟨?_, rfl, rfl, ?_⟩ <;>
    simp [wrapperCreateCollection, ensureInitialized, h', hbody]

/-- Witness for the amended C2 at a concrete wrapper, client and
configuration. -/
theorem C2_createCollection_schema_amended_witness :
    (wrapperCreateCollection wrapperNoColl ⟨"Docs", none, none⟩).2 =
      clientEx.create (createRequest ⟨"Docs", none, none⟩) :=
  (C2_createCollection_schema_amended wrapperNoColl clientEx
    ⟨"Docs", none, none⟩ "not found" rfl rfl).2.2.2

/-- The `content` value of the store object built for a chunk. -/
theorem objectContent_chunkToObject (uuid : String)
    (ch : EmbeddingChunk) :
    objectContent (chunkToObject uuid ch) = some (.str ch.data) := rfl

/-- Claim C5: the flattened batch the indexer passes to `insertObjects`
carries the `content` values of all chunks in exactly the order the
embedding collaborator produced them — per-document chunk sequences are
concatenated in document order, with no reordering. -/
theorem C5_chunk_order_preserved (uuid : Nat → Nat → String)
    (docs : List (List EmbeddingChunk)) :
    (weaviateIndexerObjects uuid docs).map objectContent =
      (docs.map (fun chunks =>
        chunks.map (fun ch => some (Json.str ch.data)))).flatten := by
  rw [weaviateIndexerObjects, List.map_flatten, List.map_map]
  have hinner : ∀ di : Nat × List EmbeddingChunk,
      (List.map objectContent ∘ fun di : Nat × List EmbeddingChunk =>
        di.2.enum.map fun cj => chunkToObject (uuid di.1 cj.1) cj.2) di =
      di.2.map (fun ch => some (Json.str ch.data)) := by
    intro di
    simp only [Function.comp_apply, List.map_map]
    have : (objectContent ∘ fun cj : Nat × EmbeddingChunk =>
        chunkToObject (uuid di.1 cj.1) cj.2) =
        (fun ch => some (Json.str ch.data)) ∘ Prod.snd := by
      funext cj
      rfl
    rw [this, ← List.map_map, List.enum_map_snd]
  rw [List.map_congr_left (fun di _ => hinner di)]
  have houter : ∀ l : List (List EmbeddingChunk),
      l.enum.map (fun di =>
        di.2.map fun ch => some (Json.str ch.data)) =
      l.map (fun chunks => chunks.map fun ch => some (Json.str ch.data)) := by
    intro l
    have : (fun di : Nat × List EmbeddingChunk =>
        di.2.map fun ch => some (Json.str ch.data)) =
        (fun chunks : List EmbeddingChunk =>
          chunks.map fun ch => some (Json.str ch.data)) ∘ Prod.snd := rfl
    rw [this, ← List.map_map, List.enum_map_snd]
  rw [houter]

/-- Claim C9: every plugin configuration containing a collection entry
without an embedder fails at setup time: the per-collection loop stops
at the first such entry with an error naming it, only the entries
strictly before it have registered their retriever/indexer pairs, and no
embedder-less entry ever registers an action. -/
theorem C9_missing_embedder_fails_setup
    (cols : List WeaviateCollectionParams)
    (c : WeaviateCollectionParams) (hc : c ∈ cols)
    (hne : c.embedder = none) :
    ∃ c0, c0 ∈ cols ∧ c0.embedder = none ∧
      (setupCollections cols).2 =
        some (embedderRequiredMsg c0.collectionName) ∧
      (setupCollections cols).1 =
        ((cols.takeWhile (fun x => x.embedder.isSome)).map
          registerFor).flatten ∧
      ¬(c ∈ cols.takeWhile (fun x => x.embedder.isSome)) := by
  induction cols with
  | nil => exact absurd hc (List.not_mem_nil c)
  | cons a rest ih =>
    cases ha : a.embedder with
    | none =>
      refine ⟨a, List.mem_cons_self a rest, ha, ?_, ?_, ?_⟩
      · simp [setupCollections, ha]
      · simp [setupCollections, ha, List.takeWhile_cons]
      · simp [List.takeWhile_cons, ha]
    | some u =>
      have hcr : c ∈ rest := by
        cases List.mem_cons.mp hc with
        | inl h => rw [h] at hne; rw [hne] at ha; exact Option.noConfusion ha
        | inr h => exact h
      obtain ⟨c0, hc0, hc0ne, herr, hacts, hnottw⟩ := ih hcr
      refine ⟨c0, List.mem_cons_of_mem a hc0, hc0ne, ?_, ?_, ?_⟩
      · simp [setupCollections, ha, herr]
      · simp [setupCollections, ha, List.takeWhile_cons, hacts]
      · simp only [List.takeWhile_cons, ha, Option.isSome_some]
        intro hmem
        cases List.mem_cons.mp hmem with
        | inl h => rw [h] at hne; rw [hne] at ha; exact Option.noConfusion ha
        | inr h => exact hnottw h

/-- Witness for C9 at a concrete two-entry configuration whose second
entry has no embedder. -/
theorem C9_missing_embedder_fails_setup_witness :
    ∃ c0, c0 ∈ [(⟨"A", some (), none⟩ : WeaviateCollectionParams),
        ⟨"B", none, none⟩] ∧ c0.embedder = none ∧
      (setupCollections [⟨"A", some (), none⟩, ⟨"B", none, none⟩]).2 =
        some (embedderRequiredMsg c0.collectionName) ∧
      (setupCollections [⟨"A", some (), none⟩, ⟨"B", none, none⟩]).1 =
        (([(⟨"A", some (), none⟩ : WeaviateCollectionParams),
          ⟨"B", none, none⟩].takeWhile (fun x => x.embedder.isSome)).map
          registerFor).flatten ∧
      ¬((⟨"B", none, none⟩ : WeaviateCollectionParams) ∈
        [(⟨"A", some (), none⟩ : WeaviateCollectionParams),
          ⟨"B", none, none⟩].takeWhile (fun x => x.embedder.isSome)) :=
  C9_missing_embedder_fails_setup
    [⟨"A", some (), none⟩, ⟨"B", none, none⟩] ⟨"B", none, none⟩
    (by decide) rfl

/-- The printed form of a JSON object is never the empty string (it
starts with an opening brace). -/
theorem jsonStringify_obj_not_empty (fs : JsonObj) :
    (jsonStringify (.obj fs)).isEmpty = false := by
  rw [Bool.eq_false_iff]
  intro h
  rw [String.isEmpty_iff] at h
  have hdata : stringifyJson (.obj fs) = [] := congrArg String.data h
  rw [stringifyJson] at hdata
  exact List.noConfusion hdata

/-- Setting a key that is not yet present appends it at the end. -/
theorem JsonObj.set_of_not_hasKey :
    ∀ {fs : JsonObj} {k : String}, fs.hasKey k = false → ∀ v : Json,
      fs.set k v = fs.snoc k v
  | .nil, _, _, _ => rfl
  | .cons k0 w tl, k, h, v => by
    simp only [JsonObj.hasKey, Bool.or_eq_false_iff] at h
    simp only [JsonObj.set, JsonObj.snoc, h.1, Bool.false_eq_true,
      if_false, JsonObj.set_of_not_hasKey h.2 v]

/-- After setting a key, the object has that key. -/
theorem JsonObj.hasKey_set :
    ∀ (fs : JsonObj) (k : String) (v : Json),
      (fs.set k v).hasKey k = true
  | .nil, k, v => by simp [JsonObj.set, JsonObj.hasKey]
  | .cons k0 w tl, k, v => by
    by_cases h : (k0 == k) = true
    · simp [JsonObj.set, h, JsonObj.hasKey]
    · simp only [JsonObj.set, h, Bool.false_eq_true, if_false,
        JsonObj.hasKey, JsonObj.hasKey_set tl k v, Bool.or_true]

/-- What the store hands back for an indexer-written object: the three
stored properties verbatim plus the reported distance. -/
theorem storedRawObject_chunk (uuid : String) (ch : EmbeddingChunk)
    (d : Option JsNumber) :
    storedRawObject (chunkToObject uuid ch) d =
      { contentProp := some ch.data
        contentTypeProp := some (ch.dataType.getD "")
        metadataProp :=
          some (jsonStringify (.obj (ch.metadata.getD .nil)))
        distance := d } := rfl

/-- Retrieving an indexer-written object back: the stored metadata
string always parses back to the original (possibly empty) metadata
object, and the reported distance, when present, is set on it under
`_distance`. -/
theorem mapResultObject_indexed (uuid : String) (ch : EmbeddingChunk)
    (d : Option JsNumber) :
    mapResultObject (storedRawObject (chunkToObject uuid ch) d) =
      .ok ⟨ch.data, ch.dataType.getD "",
        some (.obj (match d with
          | none => ch.metadata.getD .nil
          | some dist =>
            (ch.metadata.getD .nil).set "_distance" (.num dist)))⟩ := by
  rw [storedRawObject_chunk]
  have hne := jsonStringify_obj_not_empty (ch.metadata.getD .nil)
  have hparse := jsonParse_jsonStringify (.obj (ch.metadata.getD .nil))
  cases d with
  | none =>
    simp [mapResultObject, parsedMetadata, hne, hparse]
  | some dist =>
    simp [mapResultObject, parsedMetadata, hne, hparse, jsTruthy,
      setDistanceProp]

/-- Claim C3: metadata round-trip.  Every document chunk indexed with a
JSON-serializable metadata mapping `m` (not using the reserved
`_distance` key) is written with `metadata` equal to the JSON
serialization of `m`, and retrieving the stored object back yields a
document whose metadata deep-equals `m` — exactly `m` when the store
reports no distance, and `m` with only an additionally appended
`_distance` field when it does. -/
theorem C3_metadata_roundtrip (uuid : String) (ch : EmbeddingChunk)
    (m : JsonObj) (d : Option JsNumber) (hm : ch.metadata = some m)
    (hfresh : m.hasKey "_distance" = false) :
    objectMetadata (chunkToObject uuid ch) =
      some (.str (jsonStringify (.obj m))) ∧
    ∃ doc,
      mapResultObject (storedRawObject (chunkToObject uuid ch) d) =
        .ok doc ∧
      doc.data = ch.data ∧
      (d = none → doc.metadata = some (.obj m)) ∧
      (∀ dist, d = some dist →
        doc.metadata = some (.obj (m.snoc "_distance" (.num dist)))) := by
  constructor
  · simp only [objectMetadata, chunkToObject, chunkProperties, hm]
    rfl
  · refine ⟨_, mapResultObject_indexed uuid ch d, rfl, ?_, ?_⟩
    · intro hd
      subst hd
      simp [hm]
    · intro dist hd
      subst hd
      simp [hm, JsonObj.set_of_not_hasKey hfresh]

/-- Witness for C3 at the spec's own example metadata
`\x7bsource: "docs"\x7d`, with a reported distance. -/
theorem C3_metadata_roundtrip_witness :
    objectMetadata (chunkToObject "id0"
        ⟨"hello", some "text/plain",
          some (.cons "source" (.str "docs") .nil), [1, 2]⟩) =
      some (.str (jsonStringify
        (.obj (.cons "source" (.str "docs") .nil)))) ∧
    ∃ doc,
      mapResultObject (storedRawObject (chunkToObject "id0"
          ⟨"hello", some "text/plain",
            some (.cons "source" (.str "docs") .nil), [1, 2]⟩)
        (some 1)) = .ok doc ∧
      doc.data = "hello" ∧
      ((some (1 : JsNumber) : Option JsNumber) = none → doc.metadata =
        some (.obj (.cons "source" (.str "docs") .nil))) ∧
      (∀ dist, (some (1 : JsNumber) : Option JsNumber) = some dist →
        doc.metadata = some (.obj
          ((JsonObj.cons "source" (.str "docs") .nil).snoc "_distance"
            (.num dist)))) :=
  C3_metadata_roundtrip "id0"
    ⟨"hello", some "text/plain",
      some (.cons "source" (.str "docs") .nil), [1, 2]⟩
    (.cons "source" (.str "docs") .nil) (some 1) rfl (by decide)

/-- A result object whose stored metadata is the malformed string
`"not json"` and for which the store reports a distance. -/
def rawNotJson : RawResultObject := ⟨none, none, some "not json", some 1⟩

/-- Claim C6 counterexample: for the malformed stored metadata
`"not json"` with a reported distance, the retriever does not fail, but
the resulting metadata is not exactly the raw string wrapped under a
`metadata` key — the reported distance is additionally injected under
`_distance`, so the claimed shape is wrong whenever a distance is
reported. -/
theorem C6_parse_fallback_counterexample :
    jsonParse "not json" = none ∧ ¬(("not json" : String) = "") ∧
    mapResultObject rawNotJson =
      .ok ⟨"", "", some (.obj (.cons "metadata" (.str "not json")
        (.cons "_distance" (.num 1) .nil)))⟩ ∧
    ¬(mapResultObject rawNotJson =
      .ok ⟨"", "", some (.obj
        (.cons "metadata" (.str "not json") .nil))⟩) := by
  refine ⟨rfl, by decide, rfl, ?_⟩
  intro h
  have h2 := Except.ok.inj h
  exact absurd h2 (by decide)

/-- Claim C6 (amended): for every retrieved object whose stored
metadata is a non-empty string failing to parse as JSON, the retriever
does not fail the query; the resulting metadata wraps the raw string
under a `metadata` key, with the store's distance additionally injected
under `_distance` when one is reported. -/
theorem C6_parse_fallback_amended (o : RawResultObject) (s : String)
    (hs : o.metadataProp = some s) (hne : s.isEmpty = false)
    (hp : jsonParse s = none) :
    (o.distance = none →
      mapResultObject o = .ok ⟨o.contentProp.getD "",
        o.contentTypeProp.getD "",
        some (.obj (.cons "metadata" (.str s) .nil))⟩) ∧
    (∀ d, o.distance = some d →
      mapResultObject o = .ok ⟨o.contentProp.getD "",
        o.contentTypeProp.getD "",
        some (.obj (.cons "metadata" (.str s)
          (.cons "_distance" (.num d) .nil)))⟩) := by
  constructor
  · intro hd
    simp [mapResultObject, parsedMetadata, hs, hne, hp, hd]
  · intro d hd
    have hset : (JsonObj.cons "metadata" (Json.str s) .nil).set
        "_distance" (.num d) =
        .cons "metadata" (.str s) (.cons "_distance" (.num d) .nil) := rfl
    simp [mapResultObject, parsedMetadata, hs, hne, hp, hd, jsTruthy,
      setDistanceProp, hset]

/-- Witness for the amended C6 at the spec's own malformed metadata
string, with and without a reported distance. -/
theorem C6_parse_fallback_amended_witness :
    mapResultObject ⟨none, none, some "not json", some 1⟩ =
      .ok ⟨(none : Option String).getD "",
        (none : Option String).getD "",
        some (.obj (.cons "metadata" (.str "not json")
          (.cons "_distance" (.num 1) .nil)))⟩ :=
  (C6_parse_fallback_amended ⟨none, none, some "not json", some 1⟩
    "not json" rfl rfl rfl).2 1 rfl

/-- A result object whose stored metadata is the valid JSON text `"0"`
(non-empty) and for which the store reports a distance. -/
def rawZero : RawResultObject := ⟨none, none, some "0", some 1⟩

/-- Claim C7 counterexample: a stored metadata property can be
non-empty and still receive no `_distance` injection — `"0"` parses to
the JavaScript-falsy number `0`, so the truthiness guard skips the
injection even though the stored string was non-empty and a distance
was reported.  Injection is therefore not equivalent to "stored
metadata non-empty". -/
theorem C7_distance_injection_counterexample :
    rawZero.distance = some 1 ∧ rawZero.metadataProp = some "0" ∧
    ("0" : String).isEmpty = false ∧
    mapResultObject rawZero = .ok ⟨"", "", some (.num 0)⟩ ∧
    ∃ doc, mapResultObject rawZero = .ok doc ∧
      hasDistanceKey doc = false :=
  ⟨rfl, rfl, rfl, rfl, ⟨"", "", some (.num 0)⟩, rfl, rfl⟩

/-- Whether the raw stored metadata property is a non-empty string. -/
def storedNonEmpty : Option String → Bool
  | none => false
  | some s => !s.isEmpty

/-- Claim C7 (amended): when the store reports a distance and the
stored metadata property either is absent/empty, decodes to a JSON
object, or fails to parse (which covers everything this indexer ever
writes plus the parse-failure fallback), the retriever succeeds and the
`_distance` key is present in the returned metadata exactly when the
stored metadata property was a non-empty string.  Outside that shape a
non-empty stored string decoding to a falsy JSON primitive drops the
score. -/
theorem C7_distance_injection_amended (o : RawResultObject)
    (d : JsNumber) (hd : o.distance = some d)
    (hshape : ∀ s, o.metadataProp = some s → s.isEmpty = false →
      jsonParse s = none ∨ ∃ fs, jsonParse s = some (.obj fs)) :
    ∃ doc, mapResultObject o = .ok doc ∧
      (hasDistanceKey doc = true ↔
        storedNonEmpty o.metadataProp = true) := by
  cases hm : o.metadataProp with
  | none =>
    have heq : mapResultObject o =
        .ok ⟨o.contentProp.getD "", o.contentTypeProp.getD "", none⟩ := by
      simp [mapResultObject, parsedMetadata, hm, hd]
    exact ⟨_, heq, by simp [hasDistanceKey, storedNonEmpty, hm]⟩
  | some s =>
    cases hne : s.isEmpty with
    | true =>
      have heq : mapResultObject o =
          .ok ⟨o.contentProp.getD "", o.contentTypeProp.getD "",
            none⟩ := by
        simp [mapResultObject, parsedMetadata, hm, hne, hd]
      exact ⟨_, heq,
        by simp [hasDistanceKey, storedNonEmpty, hm, hne]⟩
    | false =>
      rcases hshape s hm hne with hp | ⟨fs, hp⟩
      · have heq : mapResultObject o =
            .ok ⟨o.contentProp.getD "", o.contentTypeProp.getD "",
              some (.obj ((JsonObj.cons "metadata" (.str s) .nil).set
                "_distance" (.num d)))⟩ := by
          simp [mapResultObject, parsedMetadata, hm, hne, hp, hd,
            jsTruthy, setDistanceProp]
        refine ⟨_, heq, ?_⟩
        simp only [hasDistanceKey, storedNonEmpty, hm, hne,
          Bool.not_false, iff_true]
        exact JsonObj.hasKey_set _ _ _
      · have heq : mapResultObject o =
            .ok ⟨o.contentProp.getD "", o.contentTypeProp.getD "",
              some (.obj (fs.set "_distance" (.num d)))⟩ := by
          simp [mapResultObject, parsedMetadata, hm, hne, hp, hd,
            jsTruthy, setDistanceProp]
        refine ⟨_, heq, ?_⟩
        simp only [hasDistanceKey, storedNonEmpty, hm, hne,
          Bool.not_false, iff_true]
        exact JsonObj.hasKey_set _ _ _

/-- Witness for the amended C7 at a stored `"\x7b\x7d"` (the empty JSON
object, exactly what the indexer writes for a chunk without metadata)
and a reported distance. -/
theorem C7_distance_injection_amended_witness :
    ∃ doc, mapResultObject ⟨none, none, some "{}", some 2⟩ =
        .ok doc ∧
      (hasDistanceKey doc = true ↔
        storedNonEmpty (some "{}") = true) :=
  C7_distance_injection_amended ⟨none, none, some "{}", some 2⟩ 2 rfl
    (by
      intro s hs _
      cases Option.some.inj hs
      exact Or.inr ⟨.nil, rfl⟩)

/-- Claim C10: implicit invariant of the indexing pipeline.  Every
store object it writes has a metadata property that is a non-empty JSON
string parsing to an object (the serialization of the empty object when
the chunk has no metadata); consequently retrieval of such an object
always produces a defined metadata object, and the `_distance` key is
attached whenever the store reports a distance — even for documents
indexed without any metadata. -/
theorem C10_indexed_metadata_invariant (uuid : String)
    (ch : EmbeddingChunk) (d : Option JsNumber) :
    (∃ s, objectMetadata (chunkToObject uuid ch) = some (.str s) ∧
      s.isEmpty = false ∧
      jsonParse s = some (.obj (ch.metadata.getD .nil)) ∧
      (ch.metadata = none → s = jsonStringify (.obj .nil))) ∧
    (∃ doc,
      mapResultObject (storedRawObject (chunkToObject uuid ch) d) =
        .ok doc ∧
      (∃ fs, doc.metadata = some (.obj fs)) ∧
      (∀ dist, d = some dist → hasDistanceKey doc = true)) := by
  constructor
  · refine ⟨jsonStringify (.obj (ch.metadata.getD .nil)), ?_, ?_, ?_, ?_⟩
    · simp only [objectMetadata, chunkToObject, chunkProperties]
      rfl
    · exact jsonStringify_obj_not_empty _
    · exact jsonParse_jsonStringify _
    · intro hnone
      rw [hnone]
      rfl
  · refine ⟨_, mapResultObject_indexed uuid ch d, ?_, ?_⟩
    · cases d <;> exact ⟨_, rfl⟩
    · intro dist hd
      subst hd
      simp only [hasDistanceKey]
      exact JsonObj.hasKey_set _ _ _

/-- Witness for C10 at a chunk indexed without any metadata and a
reported distance. -/
theorem C10_indexed_metadata_invariant_witness :
    (∃ s, objectMetadata (chunkToObject "id0"
          ⟨"x", none, none, []⟩) = some (.str s) ∧
      s.isEmpty = false ∧
      jsonParse s = some (.obj ((none : Option JsonObj).getD .nil)) ∧
      ((none : Option JsonObj) = none →
        s = jsonStringify (.obj .nil))) ∧
    (∃ doc,
      mapResultObject (storedRawObject (chunkToObject "id0"
          ⟨"x", none, none, []⟩) (some 2)) = .ok doc ∧
      (∃ fs, doc.metadata = some (.obj fs)) ∧
      (∀ dist, (some (2 : JsNumber) : Option JsNumber) = some dist →
        hasDistanceKey doc = true)) :=
  C10_indexed_metadata_invariant "id0" ⟨"x", none, none, []⟩ (some 2)

end GenkitxWeaviate
